import Mathlib

/-!
Verification of the spreadsheet ingestion and statistics engine of the
`golang-spreadsheets` repository (Go).  The source files embedded here are
`processing.go` (CSV processing, numeric-column classification),
`main.go` (aggregate engine and the `/calculate` batch handler), and the
all-in-one variant file (`part_002`, identical to `calculations.go`),
which duplicates the aggregate engine under shorter names.

Modelling conventions:
* Go `float64` values are modelled as exact rationals `ℚ`; the one
  operation that leaves `ℚ` (`math.Sqrt` inside `std`) is modelled with
  `Real.sqrt`, so the aggregate engine's result type is `ℝ`.
* `strconv.ParseFloat` is modelled on its decimal fragment (optional
  sign, integer/fraction digits, optional exponent), with exact rational
  values.  The `Inf`/`NaN`/hex/underscore forms and range overflow are
  not modelled; no data path of the repository depends on them.
* `strings.TrimSpace` is modelled with Go's `unicode.IsSpace` set
  (ASCII whitespace plus NEL, NBSP and the Unicode space separators).
* The classifier threshold test `float64(numeric)/float64(total) >= 0.8`
  is modelled as the exact rational comparison; the two agree for all
  count pairs reachable here (an exact ratio `n/t` of small-denominator
  rationals is never inside half an ulp of the binary64 value of `0.8`
  without being `4/5` itself).
* Go slices are lists; out-of-range indexing (a Go panic, reachable in
  the duplicated aggregate helpers only on an empty operand list that
  their caller rules out) is modelled with `getD`/`headD` defaults.
-/

/-- Go `unicode.IsSpace` on the code points relevant to `strings.TrimSpace`:
ASCII whitespace, NEL, NBSP, and the Unicode space separators. -/
def goIsSpace (c : Char) : Bool :=
  c.toNat = 0x20 ∨ (0x9 ≤ c.toNat ∧ c.toNat ≤ 0xd) ∨ c.toNat = 0x85 ∨ c.toNat = 0xa0 ∨
  c.toNat = 0x1680 ∨ (0x2000 ≤ c.toNat ∧ c.toNat ≤ 0x200a) ∨
  c.toNat = 0x2028 ∨ c.toNat = 0x2029 ∨ c.toNat = 0x202f ∨
  c.toNat = 0x205f ∨ c.toNat = 0x3000

/-- Go `strings.TrimSpace`: drop leading and trailing whitespace. -/
def goTrimSpace (s : String) : String :=
  ⟨((s.data.dropWhile goIsSpace).reverse.dropWhile goIsSpace).reverse⟩

/-- Decimal value of a digit string (most significant first). -/
def digitsToNat (cs : List Char) : Nat :=
  cs.foldl (fun a c => a * 10 + (c.toNat - 48)) 0

/-- Optional leading sign of a Go float literal. -/
def parseSign : List Char → ℚ × List Char
  | '+' :: r => (1, r)
  | '-' :: r => (-1, r)
  | r => (1, r)

/-- Go `strconv.ParseFloat(s, 64)` on its decimal fragment, with the exact
rational value: optional sign, integer digits and/or a fraction part
(at least one digit overall), optional `e`/`E` exponent with optional
sign and at least one digit, nothing trailing. -/
def parseFloat? (s : String) : Option ℚ :=
  let p := parseSign s.data
  let sign := p.1
  let cs := p.2
  let ip := cs.takeWhile Char.isDigit
  let cs₁ := cs.dropWhile Char.isDigit
  let fpr : List Char × List Char :=
    match cs₁ with
    | '.' :: r => (r.takeWhile Char.isDigit, r.dropWhile Char.isDigit)
    | _ => ([], cs₁)
  let fp := fpr.1
  let cs₂ := fpr.2
  if ip = [] ∧ fp = [] then none
  else
    let mant : ℚ := sign * ((digitsToNat ip : ℚ) + (digitsToNat fp : ℚ) / (10 : ℚ) ^ fp.length)
    match cs₂ with
    | [] => some mant
    | e :: r =>
      if e = 'e' ∨ e = 'E' then
        let ep : ℤ × List Char :=
          match r with
          | '+' :: r₁ => (1, r₁)
          | '-' :: r₁ => (-1, r₁)
          | r₁ => (1, r₁)
        let ed := ep.2.takeWhile Char.isDigit
        let r₂ := ep.2.dropWhile Char.isDigit
        if ed = [] ∨ r₂ ≠ [] then none
        else some (mant * (10 : ℚ) ^ (ep.1 * (digitsToNat ed : ℤ)))
      else none

/-- The `Spreadsheet` struct of `types.go`; the display-only metadata
fields (`FileName`, `UploadTime`, `FileSize`) are not carried because no
embedded function reads them. -/
structure Spreadsheet where
  Headers : List String
  Rows : List (List String)
  NumericCols : List Nat := []
deriving Repr, DecidableEq

/-- The `CalculationResult` struct of `types.go`. -/
structure CalculationResult where
  Col : String
  Value : ℝ

/-- `processCSV` of `processing.go`, after `csv.ReadAll`: the input is the
decoded row list (the `encoding/csv` reader with `FieldsPerRecord = -1` is
the external library boundary).  Empty input is an error; row 0 becomes
the headers with each cell trimmed and empty results replaced by
`Column_<i+1>`; the remaining rows are the body, unmodified. -/
def processCSV (rows : List (List String)) : Except String Spreadsheet :=
  match rows with
  | [] => Except.error "empty CSV"
  | r₀ :: body =>
    let headers := r₀.enum.map (fun p =>
      let h := goTrimSpace p.2
      if h = "" then "Column_" ++ toString (p.1 + 1) else h)
    Except.ok { Headers := headers, Rows := body, NumericCols := [] }

/-- `isColumnNumeric` of `processing.go`: walk the body rows, skip rows
where `colIndex` is out of range, trim the cell, skip empty cells,
count the rest and how many of them parse as floats; a column is numeric
iff the total is nonzero and the parsing ratio is at least `0.8`. -/
def isColumnNumeric (data : Spreadsheet) (colIndex : Nat) : Bool :=
  let counts := data.Rows.foldl (fun (acc : Nat × Nat) row =>
    if row.length ≤ colIndex then acc
    else
      let val := goTrimSpace (row.getD colIndex "")
      if val = "" then acc
      else if (parseFloat? val).isSome then (acc.1 + 1, acc.2 + 1)
      else (acc.1, acc.2 + 1)) (0, 0)
  if counts.2 = 0 then false
  else decide ((0.8 : ℚ) ≤ (counts.1 : ℚ) / (counts.2 : ℚ))

/-- `detectNumericColumns` of `processing.go`: append, in header order,
every column index classified numeric. -/
def detectNumericColumns (data : Spreadsheet) : List Nat :=
  (List.range data.Headers.length).foldl (fun acc col =>
    if isColumnNumeric data col then acc ++ [col] else acc) []

/-- The counted cell of column `c` in one row: `none` when the row is too
short or the trimmed cell is empty, otherwise the trimmed cell. -/
def cellValue? (c : Nat) (row : List String) : Option String :=
  if row.length ≤ c then none
  else
    let v := goTrimSpace (row.getD c "")
    if v = "" then none else some v

/-- The in-range, trimmed, non-empty cells of column `c`, in row order:
the cells that `isColumnNumeric` counts and that value extraction reads. -/
def colCells (data : Spreadsheet) (c : Nat) : List String :=
  data.Rows.filterMap (cellValue? c)

/-- Whether a trimmed cell parses as a float. -/
def cellIsNumeric (v : String) : Bool :=
  (parseFloat? v).isSome

/-- The end-to-end example table of the specification: headers
`["Name", "Score", "Notes"]` with three body rows, two of which carry a
numeric `Score`. -/
def scoreTable : Spreadsheet :=
  ⟨["Name", "Score", "Notes"],
   [["Alice", "10", "ok"], ["Bob", "", "missing"], ["Carol", "30", ""]], []⟩

/-- The error cases of the aggregate engine: `fmt.Errorf("no numeric
values")` and `fmt.Errorf("unsupported operation")`. -/
inductive CalcError where
  | noNumericValues
  | unsupportedOperation
deriving Repr, DecidableEq

/-- The seven operation names of the `performCalculation` switch. -/
def opNames : List String :=
  ["sum", "average", "median", "min", "max", "count", "std"]

/-- One sweep of the inner bubble-sort loop, `for j := 0; j < bound; j++`:
compare-and-swap adjacent elements left to right, `bound` comparisons at
most. -/
def sweep : List ℚ → Nat → List ℚ
  | l, 0 => l
  | [], _ + 1 => []
  | [a], _ + 1 => [a]
  | a :: b :: rest, k + 1 =>
    if b < a then b :: sweep (a :: rest) k else a :: sweep (b :: rest) k

/-- The outer bubble-sort loop: `bubbleAux l n` runs the sweeps with
bounds `n-1, n-2, ..., 0`, exactly the Go loop
`for i := 0; i < n; i++` with inner bound `n-1-i`. -/
def bubbleAux : List ℚ → Nat → List ℚ
  | l, 0 => l
  | l, i + 1 => bubbleAux (sweep l i) i

/-- The bubble sort appearing verbatim inside both `median` (part_002 /
`calculations.go`) and `calculateMedian` (`main.go`): sort a copy of the
operand list ascending. -/
def bubbleSort (vals : List ℚ) : List ℚ :=
  bubbleAux vals vals.length

namespace Part002

/-- Operand extraction of `performCalculation` (part_002): walk the body
rows, skip out-of-range rows, trim, skip empty cells, skip parse
failures, collect the parsed values in row order. -/
def extractValues (data : Spreadsheet) (colIndex : Nat) : List ℚ :=
  data.Rows.filterMap (fun row =>
    if row.length ≤ colIndex then none
    else
      let val := goTrimSpace (row.getD colIndex "")
      if val = "" then none
      else parseFloat? val)

/-- `sum` of part_002: left-to-right accumulation in row order. -/
def sum (vals : List ℚ) : ℚ :=
  vals.foldl (fun s v => s + v) 0

/-- `avg` of part_002: `sum(vals) / len(vals)` with no empty-list guard
(in `ℚ` the division by zero yields `0`; Go would yield `NaN`, but the
caller never passes an empty list). -/
def avg (vals : List ℚ) : ℚ :=
  sum vals / (vals.length : ℚ)

/-- `median` of part_002: bubble sort a copy ascending, then average the
two middle elements (even length) or take the middle element (odd).
Indexing is modelled with `getD`; the out-of-range read reachable only
for an empty input (a Go panic, ruled out by the caller) yields `0`. -/
def median (vals : List ℚ) : ℚ :=
  let sorted := bubbleSort vals
  let n := sorted.length
  if n % 2 = 0 then (sorted.getD (n / 2 - 1) 0 + sorted.getD (n / 2) 0) / 2
  else sorted.getD (n / 2) 0

/-- `min` of part_002: seed with `vals[0]` (modelled `headD 0`; empty
input is a Go panic ruled out by the caller), scan the rest. -/
def min (vals : List ℚ) : ℚ :=
  vals.tail.foldl (fun m v => if v < m then v else m) (vals.headD 0)

/-- `max` of part_002, dual to `min`. -/
def max (vals : List ℚ) : ℚ :=
  vals.tail.foldl (fun m v => if m < v then v else m) (vals.headD 0)

/-- `std` of part_002: `0` when `len(vals) <= 1`, else the square root of
the sum of squared deviations from the mean divided by `n - 1`. -/
noncomputable def std (vals : List ℚ) : ℝ :=
  if vals.length ≤ 1 then 0
  else
    let mean := avg vals
    let sumSq : ℚ := vals.foldl (fun acc v => acc + (v - mean) * (v - mean)) 0
    Real.sqrt ((sumSq : ℝ) / ((vals.length : ℝ) - 1))

/-- `performCalculation` of part_002: extract the operands; fail with the
no-numeric-values error when none; dispatch on the operation name, with
the unsupported-operation error as default. -/
noncomputable def performCalculation (data : Spreadsheet) (colIndex : Nat) (op : String) :
    Except CalcError ℝ :=
  let values := extractValues data colIndex
  if values = [] then Except.error CalcError.noNumericValues
  else if op = "sum" then Except.ok ((sum values : ℚ) : ℝ)
  else if op = "average" then Except.ok ((avg values : ℚ) : ℝ)
  else if op = "median" then Except.ok ((median values : ℚ) : ℝ)
  else if op = "min" then Except.ok ((min values : ℚ) : ℝ)
  else if op = "max" then Except.ok ((max values : ℚ) : ℝ)
  else if op = "count" then Except.ok (values.length : ℝ)
  else if op = "std" then Except.ok (std values)
  else Except.error CalcError.unsupportedOperation

end Part002

namespace MainGo

/-- Operand extraction of `performCalculation` (`main.go`), textually the
same loop as in part_002. -/
def extractValues (data : Spreadsheet) (colIndex : Nat) : List ℚ :=
  data.Rows.filterMap (fun row =>
    if row.length ≤ colIndex then none
    else
      let val := goTrimSpace (row.getD colIndex "")
      if val = "" then none
      else parseFloat? val)

/-- `calculateSum` of `main.go`. -/
def calculateSum (values : List ℚ) : ℚ :=
  values.foldl (fun s v => s + v) 0

/-- `calculateAverage` of `main.go`: guarded to `0` on the empty list. -/
def calculateAverage (values : List ℚ) : ℚ :=
  if values.length = 0 then 0
  else calculateSum values / (values.length : ℚ)

/-- `calculateMedian` of `main.go`: guarded to `0` on the empty list,
otherwise the same bubble sort and middle read as part_002. -/
def calculateMedian (values : List ℚ) : ℚ :=
  if values.length = 0 then 0
  else
    let sorted := bubbleSort values
    let n := sorted.length
    if n % 2 = 0 then (sorted.getD (n / 2 - 1) 0 + sorted.getD (n / 2) 0) / 2
    else sorted.getD (n / 2) 0

/-- `calculateMin` of `main.go`: guarded to `0` on the empty list. -/
def calculateMin (values : List ℚ) : ℚ :=
  if values.length = 0 then 0
  else values.tail.foldl (fun m v => if v < m then v else m) (values.headD 0)

/-- `calculateMax` of `main.go`: guarded to `0` on the empty list. -/
def calculateMax (values : List ℚ) : ℚ :=
  if values.length = 0 then 0
  else values.tail.foldl (fun m v => if m < v then v else m) (values.headD 0)

/-- `calculateStandardDeviation` of `main.go`: `0` when `n <= 1`, else
the sample standard deviation (`n - 1` divisor), via `calculateAverage`. -/
noncomputable def calculateStandardDeviation (values : List ℚ) : ℝ :=
  if values.length ≤ 1 then 0
  else
    let mean := calculateAverage values
    let sumSq : ℚ := values.foldl (fun acc v => acc + (v - mean) * (v - mean)) 0
    Real.sqrt ((sumSq : ℝ) / ((values.length : ℝ) - 1))

/-- `performCalculation` of `main.go`, same structure as part_002 with
the `calculate*` helpers. -/
noncomputable def performCalculation (data : Spreadsheet) (colIndex : Nat) (op : String) :
    Except CalcError ℝ :=
  let values := extractValues data colIndex
  if values = [] then Except.error CalcError.noNumericValues
  else if op = "sum" then Except.ok ((calculateSum values : ℚ) : ℝ)
  else if op = "average" then Except.ok ((calculateAverage values : ℚ) : ℝ)
  else if op = "median" then Except.ok ((calculateMedian values : ℚ) : ℝ)
  else if op = "min" then Except.ok ((calculateMin values : ℚ) : ℝ)
  else if op = "max" then Except.ok ((calculateMax values : ℚ) : ℝ)
  else if op = "count" then Except.ok (values.length : ℝ)
  else if op = "std" then Except.ok (calculateStandardDeviation values)
  else Except.error CalcError.unsupportedOperation

/-- The column-name lookup loop of `calculateHandler` (`main.go`):
`colIndex := -1; for i, h := range headers { if h == colName { colIndex = i;
break } }`, with `-1` modelled as `none`. -/
def lookupCol : List String → String → Option Nat
  | [], _ => none
  | h :: rest, colName =>
    if h = colName then some 0 else (lookupCol rest colName).map (· + 1)

/-- The batch loop of `calculateHandler` (`main.go`): for each requested
column name in order, resolve it against the headers; skip it when no
header matches or when the computation fails; otherwise append the
(name, value) pair to the result list. -/
noncomputable def batchCalculate (data : Spreadsheet) (cols : List String) (op : String) :
    List CalculationResult :=
  cols.foldl (fun results colName =>
    match lookupCol data.Headers colName with
    | none => results
    | some colIndex =>
      match performCalculation data colIndex op with
      | Except.error _ => results
      | Except.ok v => results ++ [⟨colName, v⟩]) []

end MainGo

/-- The counting fold of `isColumnNumeric` computes exactly
(parsing-cell count, non-empty in-range cell count) of `colCells`. -/
lemma counts_foldl (c : Nat) : ∀ (rows : List (List String)) (acc : Nat × Nat),
    rows.foldl (fun (acc : Nat × Nat) row =>
      if row.length ≤ c then acc
      else
        let val := goTrimSpace (row.getD c "")
        if val = "" then acc
        else if (parseFloat? val).isSome then (acc.1 + 1, acc.2 + 1)
        else (acc.1, acc.2 + 1)) acc
    = (acc.1 + (rows.filterMap (cellValue? c)).countP cellIsNumeric,
       acc.2 + (rows.filterMap (cellValue? c)).length) := by
  intro rows
  induction rows with
  | nil => intro acc; simp
  | cons r rest ih =>
    intro acc
    simp only [List.foldl_cons, List.filterMap_cons, cellValue?]
    split
    · simpa using ih acc
    · split
      · simpa using ih acc
      · split
        · rename_i hnum
          simp only [ih, List.countP_cons, List.length_cons, cellIsNumeric, hnum,
            if_true, Prod.mk.injEq]
          omega
        · rename_i hnum
          simp only [ih, List.countP_cons, List.length_cons, cellIsNumeric, hnum,
            Bool.false_eq_true, if_false, Prod.mk.injEq]
          omega

/-- `isColumnNumeric` in terms of the declarative cell list of the column. -/
lemma isColumnNumeric_eq_colCells (data : Spreadsheet) (c : Nat) :
    isColumnNumeric data c =
      (if (colCells data c).length = 0 then false
       else decide ((0.8 : ℚ) ≤
         ((colCells data c).countP cellIsNumeric : ℚ) / ((colCells data c).length : ℚ))) := by
  unfold isColumnNumeric colCells
  rw [counts_foldl]
  simp

/-- C1: `isColumnNumeric data c` is true iff, over the in-range,
trimmed-non-empty body cells of column `c`, the total is positive and
the fraction that parse as floats is at least `0.8`; a 4-of-5 column is
numeric, a 3-of-5 column is not, and an all-empty column is not. -/
theorem isColumnNumeric_threshold_spec :
    (∀ (data : Spreadsheet) (c : Nat),
      isColumnNumeric data c = true ↔
        0 < (colCells data c).length ∧
          (0.8 : ℚ) ≤
            ((colCells data c).countP cellIsNumeric : ℚ) / ((colCells data c).length : ℚ))
    ∧ isColumnNumeric ⟨["h"], [["1"], ["2"], ["3"], ["4"], ["a"]], []⟩ 0 = true
    ∧ isColumnNumeric ⟨["h"], [["1"], ["2"], ["3"], ["a"], ["b"]], []⟩ 0 = false
    ∧ isColumnNumeric ⟨["h"], [[""], ["   "], []], []⟩ 0 = false := by
  have key : ∀ (data : Spreadsheet) (c : Nat),
      isColumnNumeric data c = true ↔
        0 < (colCells data c).length ∧
          (0.8 : ℚ) ≤
            ((colCells data c).countP cellIsNumeric : ℚ) / ((colCells data c).length : ℚ) := by
    intro data c
    rw [isColumnNumeric_eq_colCells]
    split
    · rename_i h
      simp [h]
    · rename_i h
      simp [decide_eq_true_eq, Nat.pos_of_ne_zero h]
  refine ⟨key, ?_, ?_, ?_⟩
  · rw [key]
    have h1 : colCells ⟨["h"], [["1"], ["2"], ["3"], ["4"], ["a"]], []⟩ 0
        = ["1", "2", "3", "4", "a"] := by decide
    have h2 : List.countP cellIsNumeric ["1", "2", "3", "4", "a"] = 4 := by decide
    rw [h1, h2]
    norm_num
  · have h1 : colCells ⟨["h"], [["1"], ["2"], ["3"], ["a"], ["b"]], []⟩ 0
        = ["1", "2", "3", "a", "b"] := by decide
    have h2 : List.countP cellIsNumeric ["1", "2", "3", "a", "b"] = 3 := by decide
    cases hb : isColumnNumeric ⟨["h"], [["1"], ["2"], ["3"], ["a"], ["b"]], []⟩ 0
    · rfl
    · exfalso
      have := (key _ 0).1 hb
      rw [h1, h2] at this
      norm_num at this
  · have h1 : colCells ⟨["h"], [[""], ["   "], []], []⟩ 0 = [] := by decide
    cases hb : isColumnNumeric ⟨["h"], [[""], ["   "], []], []⟩ 0
    · rfl
    · exfalso
      have := (key _ 0).1 hb
      rw [h1] at this
      norm_num at this

/-- C2: `performCalculation` fails exactly when the operand set is empty
or the operation name is not one of the seven supported ones; an empty
operand set gives the no-numeric-values error for every operation, and a
non-empty one fails only for an unrecognized name, with the
unsupported-operation error. -/
theorem performCalculation_error_spec :
    ∀ (data : Spreadsheet) (c : Nat) (op : String),
      (Part002.extractValues data c = [] →
        Part002.performCalculation data c op = Except.error CalcError.noNumericValues)
      ∧ (Part002.extractValues data c ≠ [] → op ∉ opNames →
        Part002.performCalculation data c op = Except.error CalcError.unsupportedOperation)
      ∧ (Part002.extractValues data c ≠ [] → op ∈ opNames →
        ∃ v, Part002.performCalculation data c op = Except.ok v)
      ∧ ((∃ e, Part002.performCalculation data c op = Except.error e) ↔
        (Part002.extractValues data c = [] ∨ op ∉ opNames)) := by
  intro data c op
  have hNo : Part002.extractValues data c = [] →
      Part002.performCalculation data c op = Except.error CalcError.noNumericValues := by
    intro hv
    simp [Part002.performCalculation, hv]
  have hUnsup : Part002.extractValues data c ≠ [] → op ∉ opNames →
      Part002.performCalculation data c op = Except.error CalcError.unsupportedOperation := by
    intro hv hop
    simp only [opNames, List.mem_cons, List.not_mem_nil, or_false, not_or] at hop
    obtain ⟨h1, h2, h3, h4, h5, h6, h7⟩ := hop
    simp [Part002.performCalculation, hv, h1, h2, h3, h4, h5, h6, h7]
  have hOk : Part002.extractValues data c ≠ [] → op ∈ opNames →
      ∃ v, Part002.performCalculation data c op = Except.ok v := by
    intro hv hop
    simp only [opNames, List.mem_cons, List.not_mem_nil, or_false] at hop
    rcases hop with h | h | h | h | h | h | h
    · exact ⟨((Part002.sum (Part002.extractValues data c) : ℚ) : ℝ),
        by simp [Part002.performCalculation, hv, h]⟩
    · exact ⟨((Part002.avg (Part002.extractValues data c) : ℚ) : ℝ),
        by simp [Part002.performCalculation, hv, h]⟩
    · exact ⟨((Part002.median (Part002.extractValues data c) : ℚ) : ℝ),
        by simp [Part002.performCalculation, hv, h]⟩
    · exact ⟨((Part002.min (Part002.extractValues data c) : ℚ) : ℝ),
        by simp [Part002.performCalculation, hv, h]⟩
    · exact ⟨((Part002.max (Part002.extractValues data c) : ℚ) : ℝ),
        by simp [Part002.performCalculation, hv, h]⟩
    · exact ⟨(((Part002.extractValues data c).length : ℕ) : ℝ),
        by simp [Part002.performCalculation, hv, h]⟩
    · exact ⟨Part002.std (Part002.extractValues data c),
        by simp [Part002.performCalculation, hv, h]⟩
  refine ⟨hNo, hUnsup, hOk, ?_, ?_⟩
  · rintro ⟨e, he⟩
    by_cases hv : Part002.extractValues data c = []
    · exact Or.inl hv
    · by_cases hop : op ∈ opNames
      · obtain ⟨v, hvv⟩ := hOk hv hop
        rw [hvv] at he
        simp at he
      · exact Or.inr hop
  · rintro (hv | hop)
    · exact ⟨_, hNo hv⟩
    · by_cases hv : Part002.extractValues data c = []
      · exact ⟨_, hNo hv⟩
      · exact ⟨_, hUnsup hv hop⟩

/-- Witness for C2: an all-text column means every operation, `count`
included, fails with the no-numeric-values error; a numeric column with
an unknown operation name fails with the unsupported-operation error. -/
theorem performCalculation_error_spec_witness :
    Part002.performCalculation ⟨["h"], [["x"]], []⟩ 0 "count"
      = Except.error CalcError.noNumericValues
    ∧ Part002.performCalculation ⟨["h"], [["5"]], []⟩ 0 "mode"
      = Except.error CalcError.unsupportedOperation :=
  ⟨(performCalculation_error_spec ⟨["h"], [["x"]], []⟩ 0 "count").1 (by decide),
   (performCalculation_error_spec ⟨["h"], [["5"]], []⟩ 0 "mode").2.1 (by decide) (by decide)⟩

/-- C6: a successfully parsed CSV derives its headers from row 0 by
trimming each cell and substituting `Column_<i+1>` for cells that trim
to empty; consequently every header is non-empty. -/
theorem processCSV_headers_spec :
    ∀ (rows : List (List String)) (t : Spreadsheet),
      processCSV rows = Except.ok t →
      t.Headers.length = (rows.headD []).length
      ∧ (∀ i, i < t.Headers.length →
          t.Headers.getD i "" =
            (let h := goTrimSpace ((rows.headD []).getD i "")
             if h = "" then "Column_" ++ toString (i + 1) else h))
      ∧ (∀ h ∈ t.Headers, h ≠ "") := by
  intro rows t hok
  match rows with
  | [] => simp [processCSV] at hok
  | r₀ :: body =>
    simp only [processCSV, Except.ok.injEq] at hok
    subst hok
    have hColNe : ∀ i : Nat, ("Column_" ++ toString (i + 1) : String) ≠ "" := by
      intro i heq
      have hlen := congrArg String.length heq
      rw [String.length_append] at hlen
      have h7 : ("Column_" : String).length = 7 := rfl
      have h0 : ("" : String).length = 0 := rfl
      omega
    refine ⟨?_, ?_, ?_⟩
    · simp [List.headD]
    · intro i hi
      simp only [List.length_map, List.enum_length] at hi
      rw [List.getD_eq_getElem _ _ (by simpa using hi)]
      simp only [List.headD_cons]
      rw [List.getD_eq_getElem _ _ hi]
      simp [List.getElem_enum]
    · intro h hmem
      simp only [List.mem_map] at hmem
      obtain ⟨p, hp, rfl⟩ := hmem
      split
      · exact hColNe p.1
      · assumption

/-- Witness for C6: on the header row `["", "   ", " ok "]` the parsed
headers are non-empty and position 1 becomes `Column_2`. -/
theorem processCSV_headers_spec_witness :
    (⟨["Column_1", "Column_2", "ok"], [["x"]], []⟩ : Spreadsheet).Headers.getD 1 "" =
      (let h := goTrimSpace (([["", "   ", " ok "], ["x"]].headD []).getD 1 "")
       if h = "" then "Column_" ++ toString (1 + 1) else h)
    ∧ ("Column_1" : String) ≠ "" :=
  ⟨(processCSV_headers_spec [["", "   ", " ok "], ["x"]]
      ⟨["Column_1", "Column_2", "ok"], [["x"]], []⟩ (by rfl)).2.1 1 (by decide),
   (processCSV_headers_spec [["", "   ", " ok "], ["x"]]
      ⟨["Column_1", "Column_2", "ok"], [["x"]], []⟩ (by rfl)).2.2 "Column_1" (by decide)⟩

/-- A conditional-append fold produces the filtered list, in order. -/
lemma foldl_append_filter {α : Type} (p : α → Bool) :
    ∀ (l : List α) (acc : List α),
      l.foldl (fun acc x => if p x then acc ++ [x] else acc) acc = acc ++ l.filter p := by
  intro l
  induction l with
  | nil => intro acc; simp
  | cons x rest ih =>
    intro acc
    by_cases hp : p x
    · simp [List.filter_cons, hp, ih]
    · simp [List.filter_cons, hp, ih]

/-- Filtering away elements the partial map ignores does not change a
`filterMap`. -/
lemma filterMap_filter_of_none {α β : Type} (p : α → Bool) (f : α → Option β)
    (h : ∀ a, p a = false → f a = none) :
    ∀ l : List α, (l.filter p).filterMap f = l.filterMap f := by
  intro l
  induction l with
  | nil => rfl
  | cons a rest ih =>
    by_cases hp : p a
    · simp [List.filter_cons, hp, List.filterMap_cons, ih]
    · have hfa := h a (by simpa using hp)
      simp [List.filter_cons, hp, List.filterMap_cons, hfa, ih]

/-- C9: `detectNumericColumns` returns exactly the classifier-positive
column indices of `[0, len(headers))`, as the ascending filtered range;
the result is strictly sorted and membership is equivalent to being an
in-range index that `isColumnNumeric` accepts. -/
theorem detectNumericColumns_spec :
    ∀ data : Spreadsheet,
      detectNumericColumns data
        = (List.range data.Headers.length).filter (fun c => isColumnNumeric data c)
      ∧ List.Sorted (· < ·) (detectNumericColumns data)
      ∧ ∀ c : Nat, c ∈ detectNumericColumns data ↔
          (c < data.Headers.length ∧ isColumnNumeric data c = true) := by
  intro data
  have heq : detectNumericColumns data
      = (List.range data.Headers.length).filter (fun c => isColumnNumeric data c) := by
    unfold detectNumericColumns
    rw [foldl_append_filter]
    simp
  refine ⟨heq, ?_, ?_⟩
  · rw [heq]
    exact (List.pairwise_lt_range _).filter _
  · intro c
    rw [heq, List.mem_filter, List.mem_range]

/-- C8: classification and operand extraction ignore rows shorter than
`c + 1` entirely: removing all such rows changes neither the counted
cells, nor the classification verdict, nor the extracted operands, nor
any aggregate result; short rows are absent data, not zeros or errors. -/
theorem ragged_rows_total_spec :
    ∀ (headers : List String) (rows : List (List String)) (c : Nat),
      c < headers.length →
      colCells ⟨headers, rows, []⟩ c
          = colCells ⟨headers, rows.filter (fun r => decide (c < r.length)), []⟩ c
      ∧ isColumnNumeric ⟨headers, rows, []⟩ c
          = isColumnNumeric ⟨headers, rows.filter (fun r => decide (c < r.length)), []⟩ c
      ∧ Part002.extractValues ⟨headers, rows, []⟩ c
          = Part002.extractValues ⟨headers, rows.filter (fun r => decide (c < r.length)), []⟩ c
      ∧ ∀ op, Part002.performCalculation ⟨headers, rows, []⟩ c op
          = Part002.performCalculation ⟨headers, rows.filter (fun r => decide (c < r.length)), []⟩ c op := by
  intro headers rows c _
  have hcells : colCells ⟨headers, rows, []⟩ c
      = colCells ⟨headers, rows.filter (fun r => decide (c < r.length)), []⟩ c := by
    unfold colCells
    exact (filterMap_filter_of_none _ _ (fun r hr => by
      simp only [decide_eq_false_iff_not, not_lt] at hr
      simp [cellValue?, hr]) rows).symm
  have hextract : Part002.extractValues ⟨headers, rows, []⟩ c
      = Part002.extractValues ⟨headers, rows.filter (fun r => decide (c < r.length)), []⟩ c := by
    unfold Part002.extractValues
    exact (filterMap_filter_of_none _ _ (fun r hr => by
      simp only [decide_eq_false_iff_not, not_lt] at hr
      simp [hr]) rows).symm
  refine ⟨hcells, ?_, hextract, ?_⟩
  · rw [isColumnNumeric_eq_colCells, isColumnNumeric_eq_colCells, hcells]
  · intro op
    simp only [Part002.performCalculation, hextract]

/-- Witness for C8: with headers `["a", "b"]` and ragged body
`[["1"], ["2", "3"], []]`, dropping the rows too short for column 1
changes nothing. -/
theorem ragged_rows_total_spec_witness :
    Part002.extractValues ⟨["a", "b"], [["1"], ["2", "3"], []], []⟩ 1
      = Part002.extractValues
          ⟨["a", "b"], [["1"], ["2", "3"], []].filter (fun r => decide (1 < r.length)), []⟩ 1
    ∧ isColumnNumeric ⟨["a", "b"], [["1"], ["2", "3"], []], []⟩ 1
      = isColumnNumeric
          ⟨["a", "b"], [["1"], ["2", "3"], []].filter (fun r => decide (1 < r.length)), []⟩ 1 :=
  ⟨(ragged_rows_total_spec ["a", "b"] [["1"], ["2", "3"], []] 1 (by decide)).2.2.1,
   (ragged_rows_total_spec ["a", "b"] [["1"], ["2", "3"], []] 1 (by decide)).2.1⟩

/-- A conditional-append fold over a partial map produces its
`filterMap`, in input order. -/
lemma foldl_append_filterMap {α β : Type} (f : α → Option β) :
    ∀ (l : List α) (acc : List β),
      l.foldl (fun acc x => acc ++ (f x).toList) acc = acc ++ l.filterMap f := by
  intro l
  induction l with
  | nil => intro acc; simp
  | cons x rest ih =>
    intro acc
    cases hx : f x with
    | none => simp [List.filterMap_cons, hx, ih]
    | some y => simp [List.filterMap_cons, hx, ih]

/-- A successful `lookupCol` returns the least index bearing an exact
match of the requested name. -/
lemma lookupCol_some_least :
    ∀ (headers : List String) (name : String) (i : Nat),
      MainGo.lookupCol headers name = some i →
        i < headers.length ∧ headers.getD i "" = name ∧
          ∀ j, j < i → headers.getD j "" ≠ name := by
  intro headers
  induction headers with
  | nil => intro name i h; simp [MainGo.lookupCol] at h
  | cons h rest ih =>
    intro name i hl
    by_cases hh : h = name
    · simp only [MainGo.lookupCol, hh, if_true, Option.some.injEq] at hl
      subst hl
      exact ⟨Nat.succ_pos _, by simpa using hh, fun j hj => absurd hj (Nat.not_lt_zero j)⟩
    · simp only [MainGo.lookupCol, hh, if_false, Option.map_eq_some'] at hl
      obtain ⟨i', hi', rfl⟩ := hl
      obtain ⟨hlt, hget, hprev⟩ := ih name i' hi'
      refine ⟨by simpa using Nat.succ_lt_succ hlt, by simpa using hget, ?_⟩
      intro j hj
      match j with
      | 0 => simpa using hh
      | j' + 1 =>
        have : j' < i' := by omega
        simpa using hprev j' this

/-- `lookupCol` fails exactly when no header equals the requested name. -/
lemma lookupCol_none_iff :
    ∀ (headers : List String) (name : String),
      MainGo.lookupCol headers name = none ↔ name ∉ headers := by
  intro headers
  induction headers with
  | nil => intro name; simp [MainGo.lookupCol]
  | cons h rest ih =>
    intro name
    by_cases hh : h = name
    · simp [MainGo.lookupCol, hh]
    · simp [MainGo.lookupCol, hh, Option.map_eq_none', ih, Ne.symm hh]

/-- C7: the batch loop of `calculateHandler` resolves each requested
name to the first exact header match in ascending index order, silently
drops names with no match or whose computation errors, and emits one
(name, value) pair per surviving request in request order; with
duplicate headers `["X", "X"]` the name `"X"` resolves to index 0. -/
theorem calculateHandler_batch_spec :
    ∀ (data : Spreadsheet) (cols : List String) (op : String),
      MainGo.batchCalculate data cols op
        = cols.filterMap (fun name =>
            (MainGo.lookupCol data.Headers name).bind (fun i =>
              match MainGo.performCalculation data i op with
              | Except.error _ => none
              | Except.ok v => some ⟨name, v⟩))
      ∧ (∀ (headers : List String) (name : String) (i : Nat),
          MainGo.lookupCol headers name = some i →
            i < headers.length ∧ headers.getD i "" = name ∧
              ∀ j, j < i → headers.getD j "" ≠ name)
      ∧ (∀ (headers : List String) (name : String),
          MainGo.lookupCol headers name = none ↔ name ∉ headers)
      ∧ MainGo.lookupCol ["X", "X"] "X" = some 0 := by
  intro data cols op
  refine ⟨?_, lookupCol_some_least, lookupCol_none_iff, by decide⟩
  unfold MainGo.batchCalculate
  have hstep : (fun (results : List CalculationResult) colName =>
      match MainGo.lookupCol data.Headers colName with
      | none => results
      | some colIndex =>
        match MainGo.performCalculation data colIndex op with
        | Except.error _ => results
        | Except.ok v => results ++ [⟨colName, v⟩])
      = (fun (results : List CalculationResult) colName =>
          results ++ ((MainGo.lookupCol data.Headers colName).bind (fun i =>
            match MainGo.performCalculation data i op with
            | Except.error _ => none
            | Except.ok v => some ⟨colName, v⟩)).toList) := by
    funext results colName
    cases hl : MainGo.lookupCol data.Headers colName with
    | none => simp
    | some i =>
      cases hp : MainGo.performCalculation data i op with
      | error e => simp [hp]
      | ok v => simp [hp]
  rw [hstep]
  have hfm := @foldl_append_filterMap String CalculationResult (fun name =>
    (MainGo.lookupCol data.Headers name).bind (fun i =>
      match MainGo.performCalculation data i op with
      | Except.error _ => none
      | Except.ok v => some ⟨name, v⟩)) cols []
  exact hfm.trans (List.nil_append _)

/-- Witness for C7: from `lookupCol ["X", "X"] "X" = some 0`, index 0 is
in range and holds the requested name. -/
theorem calculateHandler_batch_spec_witness :
    0 < (["X", "X"] : List String).length ∧ (["X", "X"] : List String).getD 0 "" = "X" :=
  ⟨((calculateHandler_batch_spec ⟨["X"], [], []⟩ [] "sum").2.1 ["X", "X"] "X" 0 (by decide)).1,
   ((calculateHandler_batch_spec ⟨["X"], [], []⟩ [] "sum").2.1 ["X", "X"] "X" 0 (by decide)).2.1⟩

/-- Left fold of addition equals the seed plus the list sum. -/
lemma foldl_add_eq (l : List ℚ) : ∀ a : ℚ, l.foldl (fun s v => s + v) a = a + l.sum := by
  induction l with
  | nil => intro a; simp
  | cons x rest ih =>
    intro a
    simp only [List.foldl_cons, List.sum_cons, ih]
    ring

/-- The running-minimum fold returns the seed or a list element. -/
lemma foldl_min_mem : ∀ (l : List ℚ) (m : ℚ),
    l.foldl (fun m v => if v < m then v else m) m = m
    ∨ l.foldl (fun m v => if v < m then v else m) m ∈ l := by
  intro l
  induction l with
  | nil => intro m; exact Or.inl rfl
  | cons a rest ih =>
    intro m
    simp only [List.foldl_cons]
    rcases ih (if a < m then a else m) with h | h
    · rw [h]
      split
      · exact Or.inr (List.mem_cons_self _ _)
      · exact Or.inl rfl
    · exact Or.inr (List.mem_cons_of_mem _ h)

/-- The running-minimum fold is below the seed and every list element. -/
lemma foldl_min_le : ∀ (l : List ℚ) (m : ℚ),
    l.foldl (fun m v => if v < m then v else m) m ≤ m
    ∧ ∀ x ∈ l, l.foldl (fun m v => if v < m then v else m) m ≤ x := by
  intro l
  induction l with
  | nil => intro m; exact ⟨le_refl m, by simp⟩
  | cons a rest ih =>
    intro m
    simp only [List.foldl_cons]
    obtain ⟨h1, h2⟩ := ih (if a < m then a else m)
    have hseed : (if a < m then a else m) ≤ m := by
      split
      · rename_i hc; exact le_of_lt hc
      · exact le_refl m
    have hseeda : (if a < m then a else m) ≤ a := by
      split
      · exact le_refl a
      · rename_i hc; exact le_of_not_lt hc
    refine ⟨le_trans h1 hseed, ?_⟩
    intro x hx
    rcases List.mem_cons.mp hx with rfl | hx
    · exact le_trans h1 hseeda
    · exact h2 x hx

/-- The running-maximum fold returns the seed or a list element. -/
lemma foldl_max_mem : ∀ (l : List ℚ) (m : ℚ),
    l.foldl (fun m v => if m < v then v else m) m = m
    ∨ l.foldl (fun m v => if m < v then v else m) m ∈ l := by
  intro l
  induction l with
  | nil => intro m; exact Or.inl rfl
  | cons a rest ih =>
    intro m
    simp only [List.foldl_cons]
    rcases ih (if m < a then a else m) with h | h
    · rw [h]
      split
      · exact Or.inr (List.mem_cons_self _ _)
      · exact Or.inl rfl
    · exact Or.inr (List.mem_cons_of_mem _ h)

/-- The running-maximum fold is above the seed and every list element. -/
lemma foldl_max_ge : ∀ (l : List ℚ) (m : ℚ),
    m ≤ l.foldl (fun m v => if m < v then v else m) m
    ∧ ∀ x ∈ l, x ≤ l.foldl (fun m v => if m < v then v else m) m := by
  intro l
  induction l with
  | nil => intro m; exact ⟨le_refl m, by simp⟩
  | cons a rest ih =>
    intro m
    simp only [List.foldl_cons]
    obtain ⟨h1, h2⟩ := ih (if m < a then a else m)
    have hseed : m ≤ (if m < a then a else m) := by
      split
      · rename_i hc; exact le_of_lt hc
      · exact le_refl m
    have hseeda : a ≤ (if m < a then a else m) := by
      split
      · exact le_refl a
      · rename_i hc; exact le_of_not_lt hc
    refine ⟨le_trans hseed h1, ?_⟩
    intro x hx
    rcases List.mem_cons.mp hx with rfl | hx
    · exact le_trans hseeda h1
    · exact h2 x hx

/-- The number of extracted operands is the number of counted cells that
parse as floats. -/
lemma extractValues_length (data : Spreadsheet) (c : Nat) :
    (Part002.extractValues data c).length = (colCells data c).countP cellIsNumeric := by
  obtain ⟨hs, rows, nc⟩ := data
  unfold Part002.extractValues colCells
  simp only
  induction rows with
  | nil => rfl
  | cons r rest ih =>
    simp only [List.filterMap_cons, cellValue?]
    by_cases h1 : r.length ≤ c
    · simp only [h1, if_true]
      exact ih
    · simp only [h1, if_false]
      by_cases h2 : goTrimSpace (r.getD c "") = ""
      · simp only [h2, if_true]
        exact ih
      · simp only [h2, if_false]
        cases hp : parseFloat? (goTrimSpace (r.getD c "")) with
        | none =>
          simp only [List.countP_cons, cellIsNumeric, hp, Option.isSome_none,
            Bool.false_eq_true, if_false, ih]
          omega
        | some q =>
          simp only [List.countP_cons, cellIsNumeric, hp, Option.isSome_some,
            if_true, List.length_cons, ih]

/-- C5: on a non-empty operand list, `sum` is the left-to-right fold of
addition in row order, `avg` is `sum / n`, `min` and `max` are the least
and greatest elements; `count` answers the length of the extracted
operand list, which on the Score example is 2 while the table has 3
body rows. -/
theorem aggregates_row_order_spec :
    (∀ v : List ℚ, v ≠ [] →
      Part002.sum v = v.foldl (· + ·) 0
      ∧ Part002.avg v = Part002.sum v / (v.length : ℚ)
      ∧ Part002.min v ∈ v ∧ (∀ x ∈ v, Part002.min v ≤ x)
      ∧ Part002.max v ∈ v ∧ (∀ x ∈ v, x ≤ Part002.max v))
    ∧ (∀ (data : Spreadsheet) (c : Nat), Part002.extractValues data c ≠ [] →
        Part002.performCalculation data c "sum"
          = Except.ok (((Part002.extractValues data c).foldl (· + ·) 0 : ℚ) : ℝ)
        ∧ Part002.performCalculation data c "count"
          = Except.ok (((Part002.extractValues data c).length : ℕ) : ℝ))
    ∧ (Part002.extractValues scoreTable 1).length = 2
    ∧ scoreTable.Rows.length = 3 := by
  refine ⟨?_, ?_, ?_, rfl⟩
  · intro v hv
    match v, hv with
    | a :: t, _ =>
      refine ⟨rfl, rfl, ?_, ?_, ?_, ?_⟩
      · rcases foldl_min_mem t a with h | h
        · rw [Part002.min, List.headD_cons, List.tail_cons, h]
          exact List.mem_cons_self _ _
        · exact List.mem_cons_of_mem _ (by rwa [Part002.min, List.headD_cons, List.tail_cons])
      · intro x hx
        rw [Part002.min, List.headD_cons, List.tail_cons]
        obtain ⟨h1, h2⟩ := foldl_min_le t a
        rcases List.mem_cons.mp hx with rfl | hx
        · exact h1
        · exact h2 x hx
      · rcases foldl_max_mem t a with h | h
        · rw [Part002.max, List.headD_cons, List.tail_cons, h]
          exact List.mem_cons_self _ _
        · exact List.mem_cons_of_mem _ (by rwa [Part002.max, List.headD_cons, List.tail_cons])
      · intro x hx
        rw [Part002.max, List.headD_cons, List.tail_cons]
        obtain ⟨h1, h2⟩ := foldl_max_ge t a
        rcases List.mem_cons.mp hx with rfl | hx
        · exact h1
        · exact h2 x hx
  · intro data c hv
    constructor
    · simp [Part002.performCalculation, hv]
      rfl
    · simp [Part002.performCalculation, hv]
  · rw [extractValues_length]
    have h1 : colCells scoreTable 1 = ["10", "30"] := by decide
    rw [h1]
    decide

/-- Witness for C5: the instantiations at the concrete list `[2, 1]` and
at the Score example's `count` query. -/
theorem aggregates_row_order_spec_witness :
    Part002.sum [2, 1] = ([2, 1] : List ℚ).foldl (· + ·) 0
    ∧ Part002.min [2, 1] ∈ ([2, 1] : List ℚ)
    ∧ Part002.performCalculation scoreTable 1 "count"
        = Except.ok (((Part002.extractValues scoreTable 1).length : ℕ) : ℝ) :=
  ⟨(aggregates_row_order_spec.1 [2, 1] (by decide)).1,
   (aggregates_row_order_spec.1 [2, 1] (by decide)).2.2.1,
   (aggregates_row_order_spec.2.1 scoreTable 1 (by decide)).2⟩

/-- The two extraction loops are the same function. -/
lemma extractValues_eq (data : Spreadsheet) (c : Nat) :
    MainGo.extractValues data c = Part002.extractValues data c := rfl

/-- `calculateSum` and `sum` are the same fold. -/
lemma calculateSum_eq (v : List ℚ) : MainGo.calculateSum v = Part002.sum v := rfl

/-- On non-empty input the guarded `calculateAverage` agrees with `avg`. -/
lemma calculateAverage_eq (v : List ℚ) (hv : v ≠ []) :
    MainGo.calculateAverage v = Part002.avg v := by
  unfold MainGo.calculateAverage Part002.avg
  rw [if_neg (fun h => hv (List.length_eq_zero.mp h))]
  rfl

/-- On non-empty input the guarded `calculateMedian` agrees with `median`. -/
lemma calculateMedian_eq (v : List ℚ) (hv : v ≠ []) :
    MainGo.calculateMedian v = Part002.median v := by
  unfold MainGo.calculateMedian Part002.median
  rw [if_neg (fun h => hv (List.length_eq_zero.mp h))]

/-- On non-empty input the guarded `calculateMin` agrees with `min`. -/
lemma calculateMin_eq (v : List ℚ) (hv : v ≠ []) :
    MainGo.calculateMin v = Part002.min v := by
  unfold MainGo.calculateMin Part002.min
  rw [if_neg (fun h => hv (List.length_eq_zero.mp h))]

/-- On non-empty input the guarded `calculateMax` agrees with `max`. -/
lemma calculateMax_eq (v : List ℚ) (hv : v ≠ []) :
    MainGo.calculateMax v = Part002.max v := by
  unfold MainGo.calculateMax Part002.max
  rw [if_neg (fun h => hv (List.length_eq_zero.mp h))]

/-- On non-empty input `calculateStandardDeviation` agrees with `std`. -/
lemma calculateStd_eq (v : List ℚ) (hv : v ≠ []) :
    MainGo.calculateStandardDeviation v = Part002.std v := by
  unfold MainGo.calculateStandardDeviation Part002.std
  by_cases h1 : v.length ≤ 1
  · simp [h1]
  · rw [if_neg h1, if_neg h1, calculateAverage_eq v hv]

/-- C10: the duplicated aggregate engines are extensionally equal:
`performCalculation` of `main.go` and of part_002 agree on every table,
column index and operation, and the six aggregate helper pairs agree on
every non-empty operand list. -/
theorem duplicate_impls_agree :
    (∀ (data : Spreadsheet) (c : Nat) (op : String),
      MainGo.performCalculation data c op = Part002.performCalculation data c op)
    ∧ (∀ v : List ℚ, v ≠ [] →
      MainGo.calculateSum v = Part002.sum v
      ∧ MainGo.calculateAverage v = Part002.avg v
      ∧ MainGo.calculateMedian v = Part002.median v
      ∧ MainGo.calculateMin v = Part002.min v
      ∧ MainGo.calculateMax v = Part002.max v
      ∧ MainGo.calculateStandardDeviation v = Part002.std v) := by
  constructor
  · intro data c op
    unfold MainGo.performCalculation Part002.performCalculation
    rw [extractValues_eq]
    by_cases hv : Part002.extractValues data c = []
    · simp [hv]
    · rw [if_neg hv, if_neg hv]
      split_ifs <;>
        simp [calculateSum_eq, calculateAverage_eq _ hv, calculateMedian_eq _ hv,
          calculateMin_eq _ hv, calculateMax_eq _ hv, calculateStd_eq _ hv]
  · intro v hv
    exact ⟨calculateSum_eq v, calculateAverage_eq v hv, calculateMedian_eq v hv,
      calculateMin_eq v hv, calculateMax_eq v hv, calculateStd_eq v hv⟩

/-- Witness for C10: the helper pairs agree at the concrete list `[1, 2]`. -/
theorem duplicate_impls_agree_witness :
    MainGo.calculateMedian [1, 2] = Part002.median [1, 2]
    ∧ MainGo.calculateStandardDeviation [1, 2] = Part002.std [1, 2] :=
  ⟨(duplicate_impls_agree.2 [1, 2] (by decide)).2.2.1,
   (duplicate_impls_agree.2 [1, 2] (by decide)).2.2.2.2.2⟩

/-- Left fold of squared-deviation accumulation equals the seed plus the
sum of squared deviations. -/
lemma foldl_sumsq (m : ℚ) : ∀ (l : List ℚ) (a : ℚ),
    l.foldl (fun acc v => acc + (v - m) * (v - m)) a
      = a + (l.map (fun x => (x - m) ^ 2)).sum := by
  intro l
  induction l with
  | nil => intro a; simp
  | cons x rest ih =>
    intro a
    simp only [List.foldl_cons, List.map_cons, List.sum_cons, ih]
    ring

/-- `avg` is the list sum divided by the length. -/
lemma avg_eq_sum_div (v : List ℚ) : Part002.avg v = v.sum / (v.length : ℚ) := by
  unfold Part002.avg Part002.sum
  rw [foldl_add_eq]
  simp

/-- C4: for `n ≥ 2`, `std` is the square root of the sum of squared
deviations from the mean divided by `n - 1` (sample standard deviation,
Bessel's correction); for `n ≤ 1` it is `0`, and on a singleton operand
column the `std` operation succeeds with `0` rather than erroring. -/
theorem std_bessel_spec :
    (∀ v : List ℚ, 2 ≤ v.length →
      Part002.std v = Real.sqrt
        ((((v.map (fun x => (x - v.sum / (v.length : ℚ)) ^ 2)).sum : ℚ) : ℝ)
          / ((v.length : ℝ) - 1)))
    ∧ (∀ v : List ℚ, v.length ≤ 1 → Part002.std v = 0)
    ∧ Part002.std [(5 : ℚ)] = 0
    ∧ Part002.std [1, 2, 3, 4] = Real.sqrt (5 / 3)
    ∧ Part002.performCalculation ⟨["x"], [["5"]], []⟩ 0 "std" = Except.ok 0 := by
  have hsmall : ∀ v : List ℚ, v.length ≤ 1 → Part002.std v = 0 := by
    intro v h1
    simp [Part002.std, h1]
  have hformula : ∀ v : List ℚ, 2 ≤ v.length →
      Part002.std v = Real.sqrt
        ((((v.map (fun x => (x - v.sum / (v.length : ℚ)) ^ 2)).sum : ℚ) : ℝ)
          / ((v.length : ℝ) - 1)) := by
    intro v h2
    unfold Part002.std
    rw [if_neg (by omega)]
    simp only [avg_eq_sum_div]
    rw [foldl_sumsq]
    simp
  refine ⟨hformula, hsmall, hsmall [(5 : ℚ)] (by decide), ?_, ?_⟩
  · have h4 := hformula [1, 2, 3, 4] (by decide)
    rw [h4]
    have hsum : (([1, 2, 3, 4] : List ℚ).map
        (fun x => (x - ([1, 2, 3, 4] : List ℚ).sum / ((([1, 2, 3, 4] : List ℚ).length : ℕ) : ℚ)) ^ 2)).sum
        = 5 := by
      norm_num [List.sum_cons, List.map_cons]
    rw [hsum]
    congr 1
    push_cast
    norm_num
  · have hv : Part002.extractValues ⟨["x"], [["5"]], []⟩ 0 ≠ [] := by decide
    have hlen : (Part002.extractValues ⟨["x"], [["5"]], []⟩ 0).length = 1 := by
      rw [extractValues_length]
      decide
    simp [Part002.performCalculation, hv, hsmall _ (le_of_eq hlen)]

/-- Witness for C4: a singleton list has `std = 0` by the degenerate
case of the theorem. -/
theorem std_bessel_spec_witness : Part002.std [(7 : ℚ)] = 0 :=
  std_bessel_spec.2.1 [(7 : ℚ)] (by decide)

/-- A sweep with bound `0` does nothing. -/
lemma sweep_zero (l : List ℚ) : sweep l 0 = l := by
  match l with
  | [] => rfl
  | [a] => rfl
  | a :: b :: rest => rfl

/-- A sweep permutes the list. -/
lemma sweep_perm : ∀ (k : Nat) (l : List ℚ), List.Perm (sweep l k) l := by
  intro k
  induction k with
  | zero =>
    intro l
    rw [sweep_zero]
  | succ k ih =>
    intro l
    match l with
    | [] => exact List.Perm.refl _
    | [a] => exact List.Perm.refl _
    | a :: b :: rest =>
      simp only [sweep]
      split
      · exact ((ih (a :: rest)).cons b).trans (List.Perm.swap a b rest)
      · exact (ih (b :: rest)).cons a

/-- A sweep with bound `k` leaves positions beyond `k` untouched. -/
lemma sweep_drop : ∀ (k : Nat) (l : List ℚ), (sweep l k).drop (k + 1) = l.drop (k + 1) := by
  intro k
  induction k with
  | zero => intro l; rw [sweep_zero]
  | succ k ih =>
    intro l
    match l with
    | [] => simp [sweep]
    | [a] => simp [sweep]
    | a :: b :: rest =>
      simp only [sweep]
      split
      · simpa using ih (a :: rest)
      · simpa using ih (b :: rest)

/-- After a sweep with bound `k` the element at position `k` dominates
the original head and the whole prefix up to position `k`. -/
lemma sweep_max : ∀ (k : Nat) (l : List ℚ), k < l.length →
    l.headD 0 ≤ (sweep l k).getD k 0
    ∧ ∀ x ∈ (sweep l k).take (k + 1), x ≤ (sweep l k).getD k 0 := by
  intro k
  induction k with
  | zero =>
    intro l hl
    match l, hl with
    | a :: t, _ =>
      rw [sweep_zero]
      refine ⟨le_refl _, ?_⟩
      intro x hx
      simp only [List.take_succ_cons, List.take_zero, List.mem_singleton] at hx
      simp [hx]
  | succ k ih =>
    intro l hl
    match l with
    | [] => simp at hl
    | [a] => simp at hl
    | a :: b :: rest =>
      simp only [sweep]
      split
      · rename_i hba
        have hlen : k < (a :: rest).length := by
          simp only [List.length_cons] at hl ⊢
          omega
        obtain ⟨h1, h2⟩ := ih (a :: rest) hlen
        refine ⟨?_, ?_⟩
        · simpa using h1
        · intro x hx
          simp only [List.take_succ_cons, List.mem_cons] at hx
          rcases hx with rfl | hx
          · exact le_trans (le_of_lt hba) (by simpa using h1)
          · simpa using h2 x hx
      · rename_i hba
        have hlen : k < (b :: rest).length := by
          simp only [List.length_cons] at hl ⊢
          omega
        obtain ⟨h1, h2⟩ := ih (b :: rest) hlen
        refine ⟨?_, ?_⟩
        · exact le_trans (le_of_not_lt hba) (by simpa using h1)
        · intro x hx
          simp only [List.take_succ_cons, List.mem_cons] at hx
          rcases hx with rfl | hx
          · exact le_trans (le_of_not_lt hba) (by simpa using h1)
          · simpa using h2 x hx

/-- Permuted lists with equal suffixes have permuted prefixes. -/
lemma take_perm_of_drop_eq {l₁ l₂ : List ℚ} (n : Nat) (hp : List.Perm l₁ l₂)
    (hd : l₁.drop n = l₂.drop n) : List.Perm (l₁.take n) (l₂.take n) := by
  have key : List.Perm (l₁.take n ++ l₁.drop n) (l₂.take n ++ l₂.drop n) := by
    rw [List.take_append_drop, List.take_append_drop]
    exact hp
  rw [hd] at key
  exact (List.perm_append_right_iff _).mp key

/-- One sweep advances the sortedness invariant: if everything beyond
position `k` is sorted and dominates the prefix, then after `sweep l k`
the same holds one position earlier. -/
lemma sweep_inv (k : Nat) (l : List ℚ) (hk : k < l.length)
    (hsort : List.Sorted (· ≤ ·) (l.drop (k + 1)))
    (hcross : ∀ x ∈ l.take (k + 1), ∀ y ∈ l.drop (k + 1), x ≤ y) :
    List.Sorted (· ≤ ·) ((sweep l k).drop k)
    ∧ ∀ x ∈ (sweep l k).take k, ∀ y ∈ (sweep l k).drop k, x ≤ y := by
  have hperm : List.Perm (sweep l k) l := sweep_perm k l
  have hdrop : (sweep l k).drop (k + 1) = l.drop (k + 1) := sweep_drop k l
  have hk' : k < (sweep l k).length := hperm.length_eq.symm ▸ hk
  have htake : List.Perm ((sweep l k).take (k + 1)) (l.take (k + 1)) :=
    take_perm_of_drop_eq (k + 1) hperm hdrop
  have hgetmem : (sweep l k).getD k 0 ∈ (sweep l k).take (k + 1) := by
    have h1 : k < ((sweep l k).take (k + 1)).length := by
      rw [List.length_take]
      omega
    have h2 : ((sweep l k).take (k + 1)).getD k 0 = (sweep l k).getD k 0 := by
      rw [List.getD_eq_getElem _ _ h1, List.getD_eq_getElem _ _ hk']
      simp
    rw [← h2, List.getD_eq_getElem _ _ h1]
    exact List.getElem_mem h1
  have hcross' : ∀ x ∈ (sweep l k).take (k + 1), ∀ y ∈ l.drop (k + 1), x ≤ y := by
    intro x hx y hy
    exact hcross x (htake.mem_iff.mp hx) y hy
  have hdk : (sweep l k).drop k = (sweep l k).getD k 0 :: (sweep l k).drop (k + 1) := by
    rw [List.getD_eq_getElem _ _ hk']
    exact List.drop_eq_getElem_cons hk'
  have htk : ∀ x ∈ (sweep l k).take k, x ∈ (sweep l k).take (k + 1) := by
    intro x hx
    rw [List.take_succ]
    exact List.mem_append_left _ hx
  obtain ⟨_, hmax2⟩ := sweep_max k l hk
  constructor
  · rw [hdk, hdrop, List.sorted_cons]
    exact ⟨fun b hb => hcross' _ hgetmem b hb, hsort⟩
  · intro x hx y hy
    rw [hdk] at hy
    rcases List.mem_cons.mp hy with rfl | hy'
    · exact hmax2 x (htk x hx)
    · exact hcross' x (htk x hx) y (by rwa [hdrop] at hy')

/-- Running the remaining sweeps from a state whose suffix beyond
position `i` is already sorted and dominating yields a sorted
permutation. -/
lemma bubbleAux_sorted : ∀ (i : Nat) (l : List ℚ), i ≤ l.length →
    List.Sorted (· ≤ ·) (l.drop i) →
    (∀ x ∈ l.take i, ∀ y ∈ l.drop i, x ≤ y) →
    List.Perm (bubbleAux l i) l ∧ List.Sorted (· ≤ ·) (bubbleAux l i) := by
  intro i
  induction i with
  | zero =>
    intro l _ hsort _
    exact ⟨List.Perm.refl _, by simpa using hsort⟩
  | succ i ih =>
    intro l hle hsort hcross
    have hk : i < l.length := Nat.lt_of_succ_le hle
    obtain ⟨hs', hc'⟩ := sweep_inv i l hk hsort hcross
    have hlen' : i ≤ (sweep l i).length := by
      rw [(sweep_perm i l).length_eq]
      omega
    obtain ⟨hp, hs⟩ := ih (sweep l i) hlen' hs' hc'
    refine ⟨?_, ?_⟩
    · simpa only [bubbleAux] using hp.trans (sweep_perm i l)
    · simpa only [bubbleAux] using hs

/-- The bubble sort of the source returns an ascending-sorted
permutation of its input. -/
lemma bubbleSort_correct (v : List ℚ) :
    List.Perm (bubbleSort v) v ∧ List.Sorted (· ≤ ·) (bubbleSort v) := by
  unfold bubbleSort
  exact bubbleAux_sorted v.length v (le_refl _) (by simp) (by simp)

/-- The bubble sort agrees with Mathlib's insertion sort: both are the
unique ascending-sorted permutation. -/
lemma bubbleSort_eq_insertionSort (v : List ℚ) :
    bubbleSort v = List.insertionSort (· ≤ ·) v := by
  obtain ⟨hp, hs⟩ := bubbleSort_correct v
  exact List.eq_of_perm_of_sorted (hp.trans (List.perm_insertionSort _ v).symm) hs
    (List.sorted_insertionSort _ v)

/-- C3: `median` bubble sorts its input into an ascending-sorted
permutation and reads the middle: the average of positions
`n/2 - 1` and `n/2` for even `n`, the element at `n/2` for odd `n`,
of the ascending sort of the input. -/
theorem median_sorted_middle_spec :
    ∀ v : List ℚ, v ≠ [] →
      List.Perm (bubbleSort v) v
      ∧ List.Sorted (· ≤ ·) (bubbleSort v)
      ∧ Part002.median v =
          (if v.length % 2 = 0 then
            ((List.insertionSort (· ≤ ·) v).getD (v.length / 2 - 1) 0
              + (List.insertionSort (· ≤ ·) v).getD (v.length / 2) 0) / 2
          else (List.insertionSort (· ≤ ·) v).getD (v.length / 2) 0) := by
  intro v _
  obtain ⟨hp, hs⟩ := bubbleSort_correct v
  refine ⟨hp, hs, ?_⟩
  unfold Part002.median
  simp only [bubbleSort_eq_insertionSort, List.length_insertionSort]

/-- Witness for C3: the theorem applied to `[3, 1, 2]`. -/
theorem median_sorted_middle_spec_witness :
    List.Perm (bubbleSort [3, 1, 2]) ([3, 1, 2] : List ℚ)
    ∧ List.Sorted (· ≤ ·) (bubbleSort [3, 1, 2])
    ∧ Part002.median [3, 1, 2] =
        (if ([3, 1, 2] : List ℚ).length % 2 = 0 then
          ((List.insertionSort (· ≤ ·) ([3, 1, 2] : List ℚ)).getD
              (([3, 1, 2] : List ℚ).length / 2 - 1) 0
            + (List.insertionSort (· ≤ ·) ([3, 1, 2] : List ℚ)).getD
              (([3, 1, 2] : List ℚ).length / 2) 0) / 2
        else (List.insertionSort (· ≤ ·) ([3, 1, 2] : List ℚ)).getD
          (([3, 1, 2] : List ℚ).length / 2) 0) :=
  median_sorted_middle_spec [3, 1, 2] (by decide)
